import Mathlib

/-!
# kjobrunner: a shallow embedding of the job lifecycle controller

The Go package wraps the batch-job API of a cluster orchestrator.  The
controller (`Runner`) holds no state of its own between calls, so every
operation is embedded as a state-passing function over the state `σ` of the
orchestrator client it talks to.  The client is an interface value
(`Clientset σ`): theorems quantified over all clients cover every possible
sequence of replies; the in-memory client `kube` is used where a claim speaks
of jobs really being stored and removed.

Go values are embedded as follows.
* `error` is `Option Err` (`none` is `nil`).
* a pair `(T, error)` returned by the client is `Except Err T`: the code always
  inspects the error before it touches the value.
* `map[string]string` is an association list with unique keys, behind an
  `Option` where the map may be `nil`.
* slices are lists (a `nil` slice is the empty list).
* a pointer that may be `nil` is an `Option`.
-/

namespace kjobrunner

/-! ## Errors -/

/-- Error values that reach the controller.  `ErrNotExists` is the package's own
sentinel (runner.go, line 19); `ErrWaitTimeout` is the sentinel that the polling
helper `wait.PollImmediate` returns when its timeout elapses (the specification
calls it `ErrTimeout`); `StatusError` stands for `*apierrors.StatusError` with
its `ErrStatus.Reason`; `other` is any error of another dynamic type. -/
inductive Err where
  | ErrNotExists
  | ErrWaitTimeout
  | StatusError (reason : String) (message : String)
  | other (message : String)
  deriving DecidableEq, Repr

/-- The reason `metav1.StatusReasonNotFound`. -/
def StatusReasonNotFound : String := "NotFound"

/-- The reason `metav1.StatusReasonAlreadyExists`. -/
def StatusReasonAlreadyExists : String := "AlreadyExists"

/-! ## Go string maps -/

/-- A non-nil `map[string]string`. -/
abbrev StringMap := List (String × String)

/-- Reading `m[k]` with one result: the zero value `""` when the key is absent. -/
def StringMap.index (m : StringMap) (k : String) : String :=
  match m.lookup k with
  | some v => v
  | none => ""

/-- The assignment `m[k] = v`. -/
def StringMap.set : StringMap → String → String → StringMap
  | [], k, v => [(k, v)]
  | (k', v') :: m, k, v =>
    if k' = k then (k, v) :: m else (k', v') :: StringMap.set m k v

/-! ## Orchestrator API objects (the fields the controller reads or writes) -/

/-- The type `corev1.EnvVar`. -/
structure EnvVar where
  Name : String
  Value : String
  deriving DecidableEq, Repr

/-- The type `corev1.Container`. -/
structure Container where
  Name : String
  Image : String
  Env : List EnvVar
  Args : List String
  deriving DecidableEq, Repr

/-- The type `corev1.RestartPolicy`. -/
inductive RestartPolicy where
  | Always
  | OnFailure
  | Never
  deriving DecidableEq, Repr

/-- The type `corev1.PodSpec`. -/
structure PodSpec where
  Containers : List Container
  RestartPolicy : RestartPolicy
  deriving DecidableEq, Repr

/-- The type `metav1.ObjectMeta`; `Labels` is `none` for the nil map. -/
structure ObjectMeta where
  Name : String
  Labels : Option StringMap
  deriving DecidableEq, Repr

/-- The type `corev1.PodTemplateSpec`. -/
structure PodTemplateSpec where
  ObjectMeta : ObjectMeta
  Spec : PodSpec
  deriving DecidableEq, Repr

/-- The type `batchv1.JobSpec`; the two counters are `*int32`. -/
structure JobSpec where
  Parallelism : Option Int
  Completions : Option Int
  Template : PodTemplateSpec
  deriving DecidableEq, Repr

/-- The type `metav1.Time`: an instant, `0` being Go's zero time. -/
abbrev Time := Int

/-- The library method `(*metav1.Time).IsZero`: true for a nil pointer and for the
zero instant, so that "not zero" is the completion signal of the specification. -/
def Time.IsZero : Option Time → Bool
  | none => true
  | some t => t == 0

/-- The type `batchv1.JobStatus`; `CompletionTime` is `*metav1.Time`. -/
structure JobStatus where
  CompletionTime : Option Time
  deriving DecidableEq, Repr

/-- The type `batchv1.Job`. -/
structure Job where
  ObjectMeta : ObjectMeta
  Spec : JobSpec
  Status : JobStatus
  deriving DecidableEq, Repr

/-- The promoted field `job.Name`. -/
def Job.Name (job : Job) : String := job.ObjectMeta.Name

/-- The method `job.GetLabels()`. -/
def Job.GetLabels (job : Job) : Option StringMap := job.ObjectMeta.Labels

/-- The type `metav1.GetOptions`. -/
structure GetOptions where
  ResourceVersion : String
  deriving DecidableEq, Repr

/-- The type `metav1.ListOptions`. -/
structure ListOptions where
  LabelSelector : String
  deriving DecidableEq, Repr

/-- The type `metav1.DeletionPropagation`. -/
inductive DeletionPropagation where
  | Orphan
  | Background
  | Foreground
  deriving DecidableEq, Repr

/-- The type `metav1.DeleteOptions`; `PropagationPolicy` is a pointer. -/
structure DeleteOptions where
  PropagationPolicy : Option DeletionPropagation
  deriving DecidableEq, Repr

/-! ## The orchestrator client -/

/-- The job operations of one namespace, `client.BatchV1().Jobs(ns)`, as
transitions of the client state `σ`. -/
structure JobInterface (σ : Type) where
  Create : Job → σ → Except Err Job × σ
  Get : String → GetOptions → σ → Except Err Job × σ
  Delete : String → DeleteOptions → σ → Option Err × σ
  List : ListOptions → σ → Except Err (List Job) × σ

/-- The type `*kubernetes.Clientset`, restricted to `BatchV1().Jobs(ns)`. -/
structure Clientset (σ : Type) where
  Jobs : String → JobInterface σ

/-! ## env.go -/

/-- The type `env`. -/
structure env where
  name : String
  value : String
  deriving DecidableEq, Repr

/-- The type `Envs`. -/
structure Envs where
  arr : List env
  deriving DecidableEq, Repr

/-- The method `(*Envs).Add` on a non-nil receiver. -/
def Envs.Add (envs : Envs) (name value : String) : Envs :=
  { arr := envs.arr ++ [{ name := name, value := value }] }

/-- The method `(*Envs).envVars`; the receiver may be nil. -/
def Envs.envVars : Option Envs → List EnvVar
  | none => []
  | some envs =>
    envs.arr.foldl (fun rs e => rs ++ [{ Name := e.name, Value := e.value }]) []

/-! ## runner.go -/

/-- The type `Runner`. -/
structure Runner (σ : Type) where
  name : String
  client : Clientset σ
  labels : StringMap
  ns : String

/-- The constant `defaultName`. -/
def defaultName : String := "kjobrunner"

/-- The constructor `New`. -/
def New {σ : Type} (name : String) (client : Clientset σ) (namespace_ : String) : Runner σ :=
  let name := if name = "" then defaultName else name
  { name := name
    client := client
    labels := [("scheduler", name)]
    ns := namespace_ }

/-- The type `RunOption`. -/
structure RunOption where
  Name : String
  Image : String
  Envs : Option Envs
  Args : List String
  Replicas : Int
  deriving DecidableEq, Repr

/-- The function `cloneLabels`. -/
def cloneLabels (src : StringMap) : StringMap :=
  src.foldl (fun dst kv => dst.set kv.1 kv.2) []

/-- The job manifest that `Run` hands to `Create`, given the labels and the
(already normalised) options. -/
def runJob (labels : StringMap) (opt : RunOption) : Job :=
  { ObjectMeta := { Name := opt.Name, Labels := some labels }
    Spec :=
      { Parallelism := some opt.Replicas
        Completions := some opt.Replicas
        Template :=
          { ObjectMeta := { Name := "", Labels := some labels }
            Spec :=
              { Containers :=
                  [{ Name := "container"
                     Image := opt.Image
                     Env := Envs.envVars opt.Envs
                     Args := opt.Args }]
                RestartPolicy := RestartPolicy.OnFailure } } }
    Status := { CompletionTime := none } }

/-- The method `Runner.Run`.  The option record is passed by pointer and its
`Replicas` field is overwritten in place, so the updated record is returned
next to the error. -/
def Runner.Run {σ : Type} (r : Runner σ) (opt : RunOption) (s : σ) :
    (Option Err × RunOption) × σ :=
  let labels := (cloneLabels r.labels).set "name" opt.Name
  let opt := if opt.Replicas ≤ 0 then { opt with Replicas := 1 } else opt
  match (r.client.Jobs r.ns).Create (runJob labels opt) s with
  | (Except.ok _, s) => ((none, opt), s)
  | (Except.error err, s) => ((some err, opt), s)

/-- The method `Runner.Exists`. -/
def Runner.Exists {σ : Type} (r : Runner σ) (name : String) (s : σ) :
    (Bool × Option Err) × σ :=
  match (r.client.Jobs r.ns).Get name { ResourceVersion := "" } s with
  | (Except.error (Err.StatusError reason message), s) =>
    if reason = StatusReasonNotFound then ((false, none), s)
    else ((false, some (Err.StatusError reason message)), s)
  | (Except.error err, s) => ((false, some err), s)
  | (Except.ok job, s) =>
    match job.GetLabels with
    | none => ((false, none), s)
    | some l =>
      if l.index "scheduler" ≠ r.name then ((false, none), s)
      else ((true, none), s)

/-- The method `Runner.Delete`. -/
def Runner.Delete {σ : Type} (r : Runner σ) (name : String) (s : σ) : Option Err × σ :=
  match r.Exists name s with
  | ((_, some err), s) => (some err, s)
  | ((false, none), s) => (some Err.ErrNotExists, s)
  | ((true, none), s) =>
    let policy := DeletionPropagation.Background
    (r.client.Jobs r.ns).Delete name { PropagationPolicy := some policy } s

/-- The type `time.Duration`, in nanoseconds. -/
abbrev Duration := Nat

/-- The constant `time.Second`. -/
def time.Second : Duration := 1000000000

/-- The constant `time.Hour`. -/
def time.Hour : Duration := 3600 * time.Second

/-- Modelled from the spec: the loop `wait.WaitFor` behind `wait.PollImmediate`,
a function of the library k8s.io/apimachinery/pkg/util/wait and not of this
repository.  The condition is evaluated once for every signal received from the
poller channel, and once more when the channel is found closed; an error of the
condition ends the loop with that error, a true condition ends it with nil, and
when the ceiling has elapsed without either the loop fails with the timeout
error.  The argument `ticks` is the number of signals still to come before the
channel closes. -/
def wait.WaitFor {σ : Type} (fn : σ → (Bool × Option Err) × σ) : Nat → σ → Option Err × σ
  | ticks, s =>
    match fn s with
    | ((_, some err), s) => (some err, s)
    | ((true, none), s) => (none, s)
    | ((false, none), s) =>
      match ticks with
      | 0 => (some Err.ErrWaitTimeout, s)
      | t + 1 => wait.WaitFor fn t s

/-- Modelled from the spec: the library helper
`wait.PollImmediate(interval, timeout, condition)`, not part of this repository.
The condition is evaluated at once, then on every tick of the poller (one per
interval) until the timeout, the hard ceiling, closes the poller channel.  Real
time is not modelled: `delivered` is the number of ticks that the poller would
hand over if it ran for ever (it drops a tick when the consumer is busy); at
most `timeout / interval` of them come before the timeout. -/
def wait.PollImmediate {σ : Type} (interval timeout : Duration) (delivered : Nat)
    (condition : σ → (Bool × Option Err) × σ) (s : σ) : Option Err × σ :=
  match condition s with
  | ((_, some err), s) => (some err, s)
  | ((true, none), s) => (none, s)
  | ((false, none), s) => wait.WaitFor condition (min delivered (timeout / interval)) s

/-- The closure that `Runner.Wait` polls with. -/
def Runner.waitCondition {σ : Type} (r : Runner σ) (name : String) (s : σ) :
    (Bool × Option Err) × σ :=
  match (r.client.Jobs r.ns).Get name { ResourceVersion := "" } s with
  | (Except.error (Err.StatusError reason message), s) =>
    if reason = StatusReasonNotFound then ((true, some Err.ErrNotExists), s)
    else ((true, some (Err.StatusError reason message)), s)
  | (Except.error err, s) => ((true, some err), s)
  | (Except.ok job, s) =>
    if Time.IsZero job.Status.CompletionTime then ((false, none), s)
    else ((true, none), s)

/-- The method `Runner.Wait`. -/
def Runner.Wait {σ : Type} (r : Runner σ) (name : String) (delivered : Nat) (s : σ) :
    Option Err × σ :=
  wait.PollImmediate (2 * time.Second) (1 * time.Hour) delivered (r.waitCondition name) s

/-- The loop of `Runner.Cleanup` over `list.Items`. -/
def Runner.cleanupItems {σ : Type} (r : Runner σ) : List Job → σ → Option Err × σ
  | [], s => (none, s)
  | job :: items, s =>
    if Time.IsZero job.Status.CompletionTime then Runner.cleanupItems r items s
    else
      let policy := DeletionPropagation.Background
      match (r.client.Jobs r.ns).Delete job.Name { PropagationPolicy := some policy } s with
      | (some err, s) => (some err, s)
      | (none, s) => Runner.cleanupItems r items s

/-- The method `Runner.Cleanup`. -/
def Runner.Cleanup {σ : Type} (r : Runner σ) (s : σ) : Option Err × σ :=
  match (r.client.Jobs r.ns).List { LabelSelector := "scheduler=" ++ r.name } s with
  | (Except.error err, s) => (some err, s)
  | (Except.ok items, s) => r.cleanupItems items s

/-- The method `Runner.List`. -/
def Runner.List {σ : Type} (r : Runner σ) (s : σ) : Except Err (List String) × σ :=
  match (r.client.Jobs r.ns).List { LabelSelector := "scheduler=" ++ r.name } s with
  | (Except.error err, s) => (Except.error err, s)
  | (Except.ok items, s) => (Except.ok (items.foldl (fun rs job => rs ++ [job.Name]) []), s)

/-! ## Observing the requests of a run -/

/-- A request sent to the orchestrator. -/
inductive Request where
  | create (ns : String) (job : Job)
  | get (ns name : String) (opts : GetOptions)
  | delete (ns name : String) (opts : DeleteOptions)
  | list (ns : String) (opts : ListOptions)
  deriving DecidableEq, Repr

/-- Whether a request is a delete request. -/
def Request.isDelete : Request → Bool
  | Request.delete _ _ _ => true
  | _ => false

/-- The client `c` with a journal: it answers exactly as `c` does and appends
every request it receives to the list kept next to the state of `c`. -/
def traced {σ : Type} (c : Clientset σ) : Clientset (σ × List Request) where
  Jobs ns :=
    { Create := fun job s =>
        (((c.Jobs ns).Create job s.1).1,
          (((c.Jobs ns).Create job s.1).2, s.2 ++ [Request.create ns job]))
      Get := fun name opts s =>
        (((c.Jobs ns).Get name opts s.1).1,
          (((c.Jobs ns).Get name opts s.1).2, s.2 ++ [Request.get ns name opts]))
      Delete := fun name opts s =>
        (((c.Jobs ns).Delete name opts s.1).1,
          (((c.Jobs ns).Delete name opts s.1).2, s.2 ++ [Request.delete ns name opts]))
      List := fun opts s =>
        (((c.Jobs ns).List opts s.1).1,
          (((c.Jobs ns).List opts s.1).2, s.2 ++ [Request.list ns opts])) }

/-- The runner `r` talking to the journalled client. -/
def tracedRunner {σ : Type} (r : Runner σ) : Runner (σ × List Request) :=
  { name := r.name
    client := traced r.client
    labels := r.labels
    ns := r.ns }

/-- The get-job request of `Exists` and of each poll of `Wait`. -/
def getRequest {σ : Type} (r : Runner σ) (name : String) : Request :=
  Request.get r.ns name { ResourceVersion := "" }

/-- The list request of `List` and `Cleanup`: the selector `scheduler=<scope>`. -/
def listRequest {σ : Type} (r : Runner σ) : Request :=
  Request.list r.ns { LabelSelector := "scheduler=" ++ r.name }

/-- The delete request that `Cleanup` sends for a job: by name, in the
namespace, with background propagation. -/
def deleteRequest (ns : String) (job : Job) : Request :=
  Request.delete ns job.Name { PropagationPolicy := some DeletionPropagation.Background }

/-- The orchestrator's reply to get-job(`name`) in the namespace of `r`, with
the client state after the request. -/
def Runner.getJob {σ : Type} (r : Runner σ) (name : String) (s : σ) : Except Err Job × σ :=
  (r.client.Jobs r.ns).Get name { ResourceVersion := "" } s

/-- The orchestrator's reply to the list request of `r`, with the client state
after the request. -/
def listJobs {σ : Type} (r : Runner σ) (s : σ) : Except Err (List Job) × σ :=
  (r.client.Jobs r.ns).List { LabelSelector := "scheduler=" ++ r.name } s

/-- The reply and the client state of the poll number `k` (counted from 0) of
the job `name`, when nothing but these polls reaches the client from state `s`. -/
def observe {σ : Type} (j : JobInterface σ) (name : String) : Nat → σ → Except Err Job × σ
  | 0, s => j.Get name { ResourceVersion := "" } s
  | k + 1, s => observe j name k (j.Get name { ResourceVersion := "" } s).2

/-- The reply that poll number `k` (counted from 0) of `Wait(name)` receives when
the wait starts in the client state `s`. -/
def pollReply {σ : Type} (r : Runner σ) (name : String) (s : σ) (k : Nat) : Except Err Job :=
  (observe (r.client.Jobs r.ns) name k s).1

/-! ## The vocabulary of the specification -/

/-- A not-found reply: a status error whose reason is `NotFound`. -/
def Err.isNotFound : Err → Bool
  | Err.StatusError reason _ => reason == StatusReasonNotFound
  | _ => false

/-- The error part of a client reply. -/
def errorOf {α : Type} : Except Err α → Option Err
  | Except.ok _ => none
  | Except.error err => some err

/-- The scope a controller built by `New` from the scope name `name` works under. -/
def effectiveScope (name : String) : String :=
  if name = "" then defaultName else name

/-- The decision table of the specification for `Exists`, by the reply to
get-job and the scope of the controller. -/
def existsTable (scope : String) : Except Err Job → Bool × Option Err
  | Except.error e => if e.isNotFound then (false, none) else (false, some e)
  | Except.ok job =>
    match job.GetLabels with
    | none => (false, none)
    | some l => if l.lookup "scheduler" = some scope then (true, none) else (false, none)

/-- The replica count of the specification: the requested count when it is
positive, 1 otherwise. -/
def replicasOf (opt : RunOption) : Int :=
  if opt.Replicas > 0 then opt.Replicas else 1

/-- The managed job of the specification for the scope `S` and the options
`opt`: named `opt.Name`, labelled `scheduler: S` and `name: opt.Name` on the job
and on its pod template, parallelism and completions both the replica count, one
container with the image, the rendered environment and the arguments, restart
policy on-failure. -/
def managedJob (S : String) (opt : RunOption) : Job :=
  { ObjectMeta := { Name := opt.Name, Labels := some [("scheduler", S), ("name", opt.Name)] }
    Spec :=
      { Parallelism := some (replicasOf opt)
        Completions := some (replicasOf opt)
        Template :=
          { ObjectMeta := { Name := "", Labels := some [("scheduler", S), ("name", opt.Name)] }
            Spec :=
              { Containers :=
                  [{ Name := "container"
                     Image := opt.Image
                     Env := Envs.envVars opt.Envs
                     Args := opt.Args }]
                RestartPolicy := RestartPolicy.OnFailure } } }
    Status := { CompletionTime := none } }

/-- The jobs of a list whose completion timestamp is set (non-zero), in list order. -/
def completedJobs (items : List Job) : List Job :=
  items.filter (fun job => !Time.IsZero job.Status.CompletionTime)

/-- The poll reply shows the job present without a completion timestamp. -/
def Running : Except Err Job → Prop
  | Except.ok job => Time.IsZero job.Status.CompletionTime = true
  | Except.error _ => False

/-- The poll reply shows the job present with a non-zero completion timestamp. -/
def Completed : Except Err Job → Prop
  | Except.ok job => Time.IsZero job.Status.CompletionTime = false
  | Except.error _ => False

instance Running.decidable (rep : Except Err Job) : Decidable (Running rep) :=
  match rep with
  | Except.ok job => inferInstanceAs (Decidable (Time.IsZero job.Status.CompletionTime = true))
  | Except.error _ => inferInstanceAs (Decidable False)

instance Completed.decidable (rep : Except Err Job) : Decidable (Completed rep) :=
  match rep with
  | Except.ok job => inferInstanceAs (Decidable (Time.IsZero job.Status.CompletionTime = false))
  | Except.error _ => inferInstanceAs (Decidable False)

/-- What the specification has a wait end with at a poll that does not show the
job still running: nil on completion, `ErrNotExists` on not-found, the fetch
error itself otherwise. -/
def verdict : Except Err Job → Option Err
  | Except.ok _ => none
  | Except.error e => if e.isNotFound then some Err.ErrNotExists else some e

/-! ## An in-memory orchestrator -/

/-- The jobs held by the orchestrator, each with its namespace, in the order
in which the orchestrator lists them. -/
abbrev Cluster := List (String × Job)

/-- Whether the entry `p` is the job `name` of the namespace `ns`. -/
def isJob (ns name : String) (p : String × Job) : Bool :=
  p.1 == ns && p.2.Name == name

/-- Splits a selector into its terms, at the commas. -/
def splitTerms : List Char → List (List Char)
  | [] => [[]]
  | c :: cs =>
    if c = ',' then [] :: splitTerms cs
    else
      match splitTerms cs with
      | [] => [[c]]
      | t :: ts => (c :: t) :: ts

/-- Splits `key=value` at the first equals sign. -/
def splitTerm : List Char → Option (List Char × List Char)
  | [] => none
  | c :: cs =>
    if c = '=' then some ([], cs)
    else
      match splitTerm cs with
      | none => none
      | some (k, v) => some (c :: k, v)

/-- One term of a selector: `key=value` holds of the objects whose label `key`
has the value `value`, a bare `key` of the objects that have the label, and the
empty term of every object. -/
def selectsTerm (term : List Char) (labels : Option StringMap) : Bool :=
  match splitTerm term with
  | some (k, v) =>
    match labels with
    | none => false
    | some l => l.lookup (String.mk k) == some (String.mk v)
  | none =>
    term == [] ||
      match labels with
      | none => false
      | some l => (l.lookup (String.mk term)).isSome

/-- Modelled from the spec: the orchestrator's selector syntax, which the
repository only writes: `key=value` terms joined by a comma and a blank, read as
a conjunction.  The selector is split at its commas, the blanks in front of a
term are dropped, and an object is selected when every term holds of its
labels.  The other operators of the orchestrator's syntax are not interpreted. -/
def selects (selector : String) (labels : Option StringMap) : Bool :=
  (splitTerms selector.toList).all
    (fun term => selectsTerm (term.dropWhile (fun c => c == ' ')) labels)

/-- Modelled from the spec: the orchestration platform, which the repository
only consumes through its client (create-job, get-job-by-name,
list-jobs-by-selector, delete-job-by-name, all within one namespace), with the
reading `sel` of selectors left open.  It keeps the jobs in memory and never
fails for a reason of its own: a job is stored as submitted unless its name is
taken, a job is fetched and deleted by name, a delete takes effect at once, and
a list returns the jobs of the namespace that the selector selects, in stored
order. -/
def kubeWith (sel : String → Option StringMap → Bool) : Clientset Cluster where
  Jobs ns :=
    { Create := fun job s =>
        if s.any (isJob ns job.Name) then
          (Except.error (Err.StatusError StatusReasonAlreadyExists job.Name), s)
        else (Except.ok job, s ++ [(ns, job)])
      Get := fun name _ s =>
        match s.find? (isJob ns name) with
        | some p => (Except.ok p.2, s)
        | none => (Except.error (Err.StatusError StatusReasonNotFound name), s)
      Delete := fun name _ s =>
        if s.any (isJob ns name) then (none, s.filter (fun p => !isJob ns name p))
        else (some (Err.StatusError StatusReasonNotFound name), s)
      List := fun opts s =>
        (Except.ok
          ((s.filter (fun p => p.1 == ns && sel opts.LabelSelector p.2.GetLabels)).map
            (fun p => p.2)), s) }

/-- The in-memory orchestrator that reads selectors as `selects` does. -/
def kube : Clientset Cluster := kubeWith selects

/-- The client `c`, except that every request to delete the job named `bad`
fails with the error `e` and changes nothing. -/
def failingDelete {σ : Type} (bad : String) (e : Err) (c : Clientset σ) : Clientset σ where
  Jobs ns :=
    { Create := (c.Jobs ns).Create
      Get := (c.Jobs ns).Get
      Delete := fun name opts s =>
        if name = bad then (some e, s) else (c.Jobs ns).Delete name opts s
      List := (c.Jobs ns).List }

/-! ## The scenarios of runner_test.go -/

/-- The options of the cleanup test runs: the image `hello-world`, nothing else set. -/
def helloWorld (name : String) : RunOption :=
  { Name := name, Image := "hello-world", Envs := none, Args := [], Replicas := 0 }

/-- A job as the orchestrator reports it after a `Run` with the image
`hello-world`: name, labels, and the completion timestamp `done`. -/
def sampleJob (name scope : String) (done : Option Time) : Job :=
  { ObjectMeta := { Name := name, Labels := some [("scheduler", scope), ("name", name)] }
    Spec :=
      { Parallelism := some 1
        Completions := some 1
        Template :=
          { ObjectMeta := { Name := "", Labels := some [("scheduler", scope), ("name", name)] }
            Spec :=
              { Containers :=
                  [{ Name := "container", Image := "hello-world", Env := [], Args := [] }]
                RestartPolicy := RestartPolicy.OnFailure } } }
    Status := { CompletionTime := done } }

/-- Three completed jobs of the scope `cleanup` in the namespace `kjobrunner`. -/
def threeCompleted : Cluster :=
  [("kjobrunner", sampleJob "hello-1" "cleanup" (some 5)),
   ("kjobrunner", sampleJob "hello-2" "cleanup" (some 7)),
   ("kjobrunner", sampleJob "hello-3" "cleanup" (some 9))]

/-- Two jobs of the scope `cleanup`: `hello-1` has completed, `hello-3` is
running and stays so. -/
def waitScenario : Cluster :=
  [("kjobrunner", sampleJob "hello-1" "cleanup" (some 5)),
   ("kjobrunner", sampleJob "hello-3" "cleanup" none)]

/-! ## Environment builder (C9) -/

theorem envVars_foldl (arr : List env) (acc : List EnvVar) :
    arr.foldl (fun rs e => rs ++ [{ Name := e.name, Value := e.value }]) acc
      = acc ++ arr.map (fun e => { Name := e.name, Value := e.value }) := by
  induction arr generalizing acc with
  | nil => simp
  | cons e arr ih => simp [ih]

theorem add_foldl (pairs : List (String × String)) (envs : Envs) :
    (pairs.foldl (fun acc p => acc.Add p.1 p.2) envs).arr
      = envs.arr ++ pairs.map (fun p => { name := p.1, value := p.2 }) := by
  induction pairs generalizing envs with
  | nil => simp
  | cons p pairs ih =>
    rw [List.foldl_cons, ih]
    simp [Envs.Add]

/-- C9: adding the pairs (n1,v1),...,(nk,vk) in this order to an empty `Envs`
and rendering it with `envVars` gives exactly k entries, entry i carrying name
ni and value vi, in insertion order and with duplicates kept; `envVars` of an
`Envs` without pairs and of a nil `*Envs` is the empty sequence. -/
theorem C9_envVars_preserves_pairs (pairs : List (String × String)) :
    Envs.envVars (some (pairs.foldl (fun acc p => acc.Add p.1 p.2) { arr := [] }))
        = pairs.map (fun p => { Name := p.1, Value := p.2 })
      ∧ (Envs.envVars (some (pairs.foldl (fun acc p => acc.Add p.1 p.2) { arr := [] }))).length
          = pairs.length
      ∧ (∀ i (h : i < pairs.length),
          (Envs.envVars (some (pairs.foldl (fun acc p => acc.Add p.1 p.2) { arr := [] })))[i]?
            = some { Name := (pairs.get ⟨i, h⟩).1, Value := (pairs.get ⟨i, h⟩).2 })
      ∧ Envs.envVars (some { arr := [] }) = []
      ∧ Envs.envVars none = [] := by
  have h : Envs.envVars (some (pairs.foldl (fun acc p => acc.Add p.1 p.2) { arr := [] }))
      = pairs.map (fun p => { Name := p.1, Value := p.2 }) := by
    simp [Envs.envVars, envVars_foldl, add_foldl, List.map_map, Function.comp_def]
  refine ⟨h, ?_, ?_, ?_, ?_⟩
  · simp [h]
  · intro i hi
    simp [h, List.getElem?_map, List.getElem?_eq_getElem hi]
  · simp [Envs.envVars]
  · simp [Envs.envVars]

/-! ## Existence check (C1) -/

theorem index_eq_iff_lookup (l : StringMap) (k v : String) (hv : v ≠ "") :
    l.index k = v ↔ l.lookup k = some v := by
  unfold StringMap.index
  cases h : l.lookup k with
  | none =>
    simp only [reduceCtorEq, iff_false]
    exact fun h' => hv h'.symm
  | some w => simp

theorem Exists_eq_table {σ : Type} (r : Runner σ) (hr : r.name ≠ "") (name : String) (s : σ) :
    r.Exists name s = (existsTable r.name (r.getJob name s).1, (r.getJob name s).2) := by
  unfold Runner.Exists Runner.getJob
  rcases h : (r.client.Jobs r.ns).Get name { ResourceVersion := "" } s with ⟨rep, s1⟩
  cases rep with
  | error e =>
    cases e with
    | StatusError reason message =>
      by_cases hq : reason = StatusReasonNotFound <;> simp [existsTable, Err.isNotFound, hq]
    | ErrNotExists => simp [existsTable, Err.isNotFound]
    | ErrWaitTimeout => simp [existsTable, Err.isNotFound]
    | other m => simp [existsTable, Err.isNotFound]
  | ok job =>
    simp only [existsTable]
    cases hl : job.GetLabels with
    | none => simp
    | some l =>
      by_cases hq : l.index "scheduler" = r.name
      · have := (index_eq_iff_lookup l "scheduler" r.name hr).1 hq
        simp [hq, this]
      · have : ¬ l.lookup "scheduler" = some r.name :=
          fun h' => hq ((index_eq_iff_lookup l "scheduler" r.name hr).2 h')
        simp [hq, this]

/-- C1: for every runner `r` (its scope is never empty, `New` sees to that) and
every job name, `Exists` follows the decision table on the reply to get-job:
not-found gives (false, nil); another fetch error e gives (false, e); a job
without labels gives (false, nil); a job whose `scheduler` label differs from
the scope (or is missing) gives (false, nil); a job whose `scheduler` label is
the scope gives (true, nil).  So `Exists` reports true if and only if the fetch
succeeded and the ownership label equals the scope; it sends nothing but the
get-job request. -/
theorem C1_exists_decision_table {σ : Type} (r : Runner σ) (hr : r.name ≠ "")
    (name : String) (s : σ) :
    (∀ e, (r.getJob name s).1 = Except.error e → e.isNotFound = true →
        (r.Exists name s).1 = (false, none))
      ∧ (∀ e, (r.getJob name s).1 = Except.error e → e.isNotFound = false →
        (r.Exists name s).1 = (false, some e))
      ∧ (∀ job, (r.getJob name s).1 = Except.ok job → job.GetLabels = none →
        (r.Exists name s).1 = (false, none))
      ∧ (∀ job l, (r.getJob name s).1 = Except.ok job → job.GetLabels = some l →
        l.lookup "scheduler" ≠ some r.name → (r.Exists name s).1 = (false, none))
      ∧ (∀ job l, (r.getJob name s).1 = Except.ok job → job.GetLabels = some l →
        l.lookup "scheduler" = some r.name → (r.Exists name s).1 = (true, none))
      ∧ ((r.Exists name s).1.1 = true ↔
          ∃ job l, (r.getJob name s).1 = Except.ok job ∧ job.GetLabels = some l
            ∧ l.lookup "scheduler" = some r.name)
      ∧ (r.Exists name s).2 = (r.getJob name s).2
      ∧ ((tracedRunner r).Exists name (s, [])).2.2
          = [Request.get r.ns name { ResourceVersion := "" }] := by
  have key := Exists_eq_table r hr name s
  refine ⟨?_, ?_, ?_, ?_, ?_, ?_, ?_, ?_⟩
  · intro e he hnf
    simp [key, he, existsTable, hnf]
  · intro e he hnf
    simp [key, he, existsTable, hnf]
  · intro job hj hl
    simp [key, hj, existsTable, hl]
  · intro job l hj hl hne
    simp [key, hj, existsTable, hl, hne]
  · intro job l hj hl heq
    simp [key, hj, existsTable, hl, heq]
  · rw [key]
    cases hrep : (r.getJob name s).1 with
    | error e =>
      by_cases hnf : e.isNotFound = true <;> simp [existsTable, hnf]
    | ok job =>
      cases hl : job.GetLabels with
      | none => simp [existsTable, hl]
      | some l =>
        by_cases hq : l.lookup "scheduler" = some r.name <;> simp [existsTable, hl, hq]
  · rw [key]
  · have hk := Exists_eq_table (tracedRunner r) hr name (s, [])
    rw [hk]
    simp [Runner.getJob, tracedRunner, traced]

theorem C1_exists_decision_table_witness :
    (New "runner" kube "kjobrunner").name ≠ ""
      ∧ ((New "runner" kube "kjobrunner").Exists "notexists" []).1 = (false, none) :=
  ⟨by decide,
    (C1_exists_decision_table (New "runner" kube "kjobrunner") (by decide) "notexists" []).1
      (Err.StatusError StatusReasonNotFound "notexists") rfl rfl⟩

/-! ## Submission (C7) -/

theorem New_name {σ : Type} (scope ns : String) (client : Clientset σ) :
    (New scope client ns).name = effectiveScope scope := rfl

theorem runJob_New (scope : String) (opt : RunOption) :
    runJob ((cloneLabels [("scheduler", effectiveScope scope)]).set "name" opt.Name)
        (if opt.Replicas ≤ 0 then { opt with Replicas := 1 } else opt)
      = managedJob (effectiveScope scope) opt := by
  have hl : (cloneLabels [("scheduler", effectiveScope scope)]).set "name" opt.Name
      = [("scheduler", effectiveScope scope), ("name", opt.Name)] := by
    simp [cloneLabels, StringMap.set]
  rw [hl]
  by_cases h : opt.Replicas ≤ 0
  · have h' : ¬ opt.Replicas > 0 := not_lt.mpr h
    simp [runJob, managedJob, replicasOf, h, h']
  · have h' : opt.Replicas > 0 := not_le.mp h
    simp [runJob, managedJob, replicasOf, h, h']

theorem Run_New {σ : Type} (scope ns : String) (client : Clientset σ) (opt : RunOption) (s : σ) :
    (New scope client ns).Run opt s
      = ((errorOf ((client.Jobs ns).Create (managedJob (effectiveScope scope) opt) s).1,
          if opt.Replicas ≤ 0 then { opt with Replicas := 1 } else opt),
         ((client.Jobs ns).Create (managedJob (effectiveScope scope) opt) s).2) := by
  have hj := runJob_New scope opt
  unfold Runner.Run
  simp only [New, ← effectiveScope.eq_1] at *
  rw [hj]
  rcases h : (client.Jobs ns).Create (managedJob (effectiveScope scope) opt) s with ⟨rep, s1⟩
  cases rep <;> simp [errorOf]

/-- C7: for the runner that `New` builds for a scope name (scope S, the name
itself or the default when it is empty) and every `RunOption`, `Run` sends the
orchestrator exactly one request, the creation of the job named `opt.Name` with
the labels `scheduler: S` and `name: opt.Name` on the job and on its pod
template, parallelism = completions = the replica count (`opt.Replicas` when
positive, else 1), a single container with the image, the rendered `opt.Envs`
and `opt.Args`, and restart policy on-failure; it returns the error of that
creation unchanged, nil when the creation succeeds. -/
theorem C7_run_submits_managed_job {σ : Type} (scope ns : String) (client : Clientset σ)
    (opt : RunOption) (s : σ) :
    ((tracedRunner (New scope client ns)).Run opt (s, [])).2.2
        = [Request.create ns (managedJob (New scope client ns).name opt)]
      ∧ ((New scope client ns).Run opt s).1.1
        = errorOf ((client.Jobs ns).Create (managedJob (New scope client ns).name opt) s).1
      ∧ ((New scope client ns).Run opt s).2
        = ((client.Jobs ns).Create (managedJob (New scope client ns).name opt) s).2
      ∧ ((managedJob (New scope client ns).name opt).ObjectMeta.Labels
          = some [("scheduler", (New scope client ns).name), ("name", opt.Name)])
      ∧ ((managedJob (New scope client ns).name opt).Spec.Parallelism
          = some (if opt.Replicas > 0 then opt.Replicas else 1)) := by
  have h1 := Run_New scope ns client opt s
  have h2 := Run_New scope ns (traced client) opt (s, [])
  have ht : tracedRunner (New scope client ns) = New scope (traced client) ns := rfl
  rw [ht, h1, h2, New_name]
  refine ⟨?_, rfl, rfl, rfl, rfl⟩
  simp [traced]

/-! ## Deletion (C3) -/

theorem Exists_state {σ : Type} (r : Runner σ) (name : String) (s : σ) :
    (r.Exists name s).2 = (r.getJob name s).2 := by
  unfold Runner.Exists Runner.getJob
  rcases h : (r.client.Jobs r.ns).Get name { ResourceVersion := "" } s with ⟨rep, s1⟩
  cases rep with
  | error e =>
    cases e with
    | StatusError reason message =>
      by_cases hq : reason = StatusReasonNotFound <;> simp [hq]
    | ErrNotExists => simp
    | ErrWaitTimeout => simp
    | other m => simp
  | ok job =>
    cases hl : job.GetLabels with
    | none => simp [hl]
    | some l => by_cases hq : l.index "scheduler" = r.name <;> simp [hl, hq]

theorem Exists_traced {σ : Type} (r : Runner σ) (name : String) (s : σ) (log : List Request) :
    (tracedRunner r).Exists name (s, log)
      = ((r.Exists name s).1,
          ((r.Exists name s).2, log ++ [Request.get r.ns name { ResourceVersion := "" }])) := by
  unfold Runner.Exists
  simp only [tracedRunner, traced]
  rcases h : (r.client.Jobs r.ns).Get name { ResourceVersion := "" } s with ⟨rep, s1⟩
  cases rep with
  | error e =>
    cases e with
    | StatusError reason message =>
      by_cases hq : reason = StatusReasonNotFound <;> simp [hq]
    | ErrNotExists => simp
    | ErrWaitTimeout => simp
    | other m => simp
  | ok job =>
    cases hl : job.GetLabels with
    | none => simp [hl]
    | some l => by_cases hq : l.index "scheduler" = r.name <;> simp [hl, hq]

theorem Exists_error_false {σ : Type} (r : Runner σ) (name : String) (s : σ) (e : Err)
    (h : (r.Exists name s).1.2 = some e) : (r.Exists name s).1.1 = false := by
  revert h
  unfold Runner.Exists
  rcases (r.client.Jobs r.ns).Get name { ResourceVersion := "" } s with ⟨rep, s1⟩
  cases rep with
  | error e =>
    cases e with
    | StatusError reason message =>
      by_cases hq : reason = StatusReasonNotFound <;> simp [hq]
    | ErrNotExists => simp
    | ErrWaitTimeout => simp
    | other m => simp
  | ok job =>
    cases hl : job.GetLabels with
    | none => simp [hl]
    | some l => by_cases hq : l.index "scheduler" = r.name <;> simp [hl, hq]

theorem Delete_cases {σ : Type} (r : Runner σ) (name : String) (s : σ) :
    ((r.Exists name s).1 = (true, none) ∧
        r.Delete name s = (r.client.Jobs r.ns).Delete name
          { PropagationPolicy := some DeletionPropagation.Background } (r.Exists name s).2)
      ∨ ((r.Exists name s).1 = (false, none) ∧
        r.Delete name s = (some Err.ErrNotExists, (r.Exists name s).2))
      ∨ (∃ e, (r.Exists name s).1 = (false, some e) ∧
        r.Delete name s = (some e, (r.Exists name s).2)) := by
  have hf := Exists_error_false r name s
  unfold Runner.Delete
  rcases h : r.Exists name s with ⟨⟨b, oe⟩, s1⟩
  rw [h] at hf
  cases oe with
  | some e =>
    have := hf e rfl
    simp only at this
    subst this
    right; right
    exact ⟨e, rfl, rfl⟩
  | none =>
    cases b with
    | true => left; exact ⟨rfl, rfl⟩
    | false => right; left; exact ⟨rfl, rfl⟩

theorem Delete_traced {σ : Type} (r : Runner σ) (name : String) (s : σ) :
    ((r.Exists name s).1 = (true, none) ∧
        ((tracedRunner r).Delete name (s, [])).2.2
          = [Request.get r.ns name { ResourceVersion := "" },
             Request.delete r.ns name
              { PropagationPolicy := some DeletionPropagation.Background }])
      ∨ ((r.Exists name s).1 ≠ (true, none) ∧
        ((tracedRunner r).Delete name (s, [])).2.2
          = [Request.get r.ns name { ResourceVersion := "" }]) := by
  have ht := Exists_traced r name s []
  have hf := Exists_error_false r name s
  unfold Runner.Delete
  rw [ht]
  rcases h : r.Exists name s with ⟨⟨b, oe⟩, s1⟩
  rw [h] at hf
  cases oe with
  | some e =>
    right
    simp
  | none =>
    cases b with
    | true =>
      left
      simp [tracedRunner, traced]
    | false =>
      right
      simp

theorem existsTable_not_owned (scope : String) (job : Job)
    (h : job.GetLabels.bind (fun l => l.lookup "scheduler") ≠ some scope) :
    existsTable scope (Except.ok job) = (false, none) := by
  unfold existsTable
  cases hl : job.GetLabels with
  | none => simp [hl]
  | some l =>
    rw [hl] at h
    have h' : ¬ l.lookup "scheduler" = some scope := by simpa using h
    simp [hl, h']

/-- C3: for every runner `r` and job name: when the job is absent (get-job
replies not-found) or its ownership label is not the scope of `r` (no labels,
no `scheduler` label, or another value), `Delete` returns `ErrNotExists`, the
get-job request is the only request it sends and the client is left in the
state that request left it in; when the fetch fails with another error e,
`Delete` returns e and again sends nothing but the get-job request; a delete
request is sent exactly when `Exists` returned (true, nil), and it is the single
delete of that name with background propagation, whose reply `Delete` returns.
On the in-memory orchestrator a `Delete` that sends no delete request leaves the
job set unchanged. -/
theorem C3_delete_only_when_owned {σ : Type} (r : Runner σ) (hr : r.name ≠ "")
    (name : String) (s : σ) :
    (∀ e, (r.getJob name s).1 = Except.error e → e.isNotFound = true →
        r.Delete name s = (some Err.ErrNotExists, (r.getJob name s).2)
          ∧ ((tracedRunner r).Delete name (s, [])).2.2
            = [Request.get r.ns name { ResourceVersion := "" }])
      ∧ (∀ job, (r.getJob name s).1 = Except.ok job →
          job.GetLabels.bind (fun l => l.lookup "scheduler") ≠ some r.name →
        r.Delete name s = (some Err.ErrNotExists, (r.getJob name s).2)
          ∧ ((tracedRunner r).Delete name (s, [])).2.2
            = [Request.get r.ns name { ResourceVersion := "" }])
      ∧ (∀ e, (r.getJob name s).1 = Except.error e → e.isNotFound = false →
        r.Delete name s = (some e, (r.getJob name s).2)
          ∧ ((tracedRunner r).Delete name (s, [])).2.2
            = [Request.get r.ns name { ResourceVersion := "" }])
      ∧ ((∃ q ∈ ((tracedRunner r).Delete name (s, [])).2.2, q.isDelete = true)
          ↔ (r.Exists name s).1 = (true, none))
      ∧ ((r.Exists name s).1 = (true, none) →
          ((tracedRunner r).Delete name (s, [])).2.2
              = [Request.get r.ns name { ResourceVersion := "" },
                 Request.delete r.ns name
                  { PropagationPolicy := some DeletionPropagation.Background }]
            ∧ r.Delete name s = (r.client.Jobs r.ns).Delete name
                { PropagationPolicy := some DeletionPropagation.Background }
                (r.getJob name s).2)
      ∧ (∀ (scope ns n : String) (c : Cluster),
          ((New scope kube ns).Exists n c).1 ≠ (true, none) →
            ((New scope kube ns).Delete n c).2 = c) := by
  have key := Exists_eq_table r hr name s
  have hst := Exists_state r name s
  have hd := Delete_cases r name s
  have ht := Delete_traced r name s
  have hfalse : ∀ x : Bool × Option Err, (r.Exists name s).1 = x → x ≠ (true, none) →
      ((tracedRunner r).Delete name (s, [])).2.2
        = [Request.get r.ns name { ResourceVersion := "" }] := by
    intro x hx hne
    rcases ht with ⟨h1, _⟩ | ⟨_, h2⟩
    · exact absurd (hx ▸ h1) hne
    · exact h2
  have hnone : (r.Exists name s).1 = (false, none) →
      r.Delete name s = (some Err.ErrNotExists, (r.getJob name s).2) := by
    intro hx
    rcases hd with ⟨h1, _⟩ | ⟨_, h2⟩ | ⟨e, h3, _⟩
    · rw [hx] at h1; simp at h1
    · rw [h2, hst]
    · rw [hx] at h3; simp at h3
  have hsome : ∀ e, (r.Exists name s).1 = (false, some e) →
      r.Delete name s = (some e, (r.getJob name s).2) := by
    intro e hx
    rcases hd with ⟨h1, _⟩ | ⟨h2, _⟩ | ⟨e', h3, h4⟩
    · rw [hx] at h1; simp at h1
    · rw [hx] at h2; simp at h2
    · rw [hx] at h3
      simp only [Prod.mk.injEq, Option.some.injEq, true_and] at h3
      subst h3
      rw [h4, hst]
  refine ⟨?_, ?_, ?_, ?_, ?_, ?_⟩
  · intro e he hnf
    have hx : (r.Exists name s).1 = (false, none) := by simp [key, he, existsTable, hnf]
    exact ⟨hnone hx, hfalse _ hx (by simp)⟩
  · intro job hj hl
    have hx : (r.Exists name s).1 = (false, none) := by
      simp [key, hj, existsTable_not_owned r.name job hl]
    exact ⟨hnone hx, hfalse _ hx (by simp)⟩
  · intro e he hnf
    have hx : (r.Exists name s).1 = (false, some e) := by simp [key, he, existsTable, hnf]
    exact ⟨hsome e hx, hfalse _ hx (by simp)⟩
  · rcases ht with ⟨h1, h2⟩ | ⟨h1, h2⟩
    · rw [h2]
      simp [h1, Request.isDelete]
    · rw [h2]
      simp [h1, Request.isDelete]
  · intro hx
    rcases ht with ⟨_, h2⟩ | ⟨h1, _⟩
    · refine ⟨h2, ?_⟩
      rcases hd with ⟨_, h4⟩ | ⟨h3, _⟩ | ⟨e, h3, _⟩
      · rw [h4, hst]
      · rw [hx] at h3; simp at h3
      · rw [hx] at h3; simp at h3
    · exact absurd hx h1
  · intro scope ns n c hne
    have hs := Exists_state (New scope kube ns) n c
    have hg : ((New scope kube ns).getJob n c).2 = c := by
      simp only [Runner.getJob, New, kube, kubeWith]
      cases List.find? (isJob ns n) c <;> rfl
    rcases Delete_cases (New scope kube ns) n c with ⟨h1, _⟩ | ⟨_, h2⟩ | ⟨e, _, h3⟩
    · exact absurd h1 hne
    · rw [h2, hs, hg]
    · rw [h3, hs, hg]

theorem C3_delete_only_when_owned_witness :
    (New "runner" kube "kjobrunner").name ≠ ""
      ∧ (New "runner" kube "kjobrunner").Delete "notexists" []
          = (some Err.ErrNotExists, [])
      ∧ ((tracedRunner (New "runner" kube "kjobrunner")).Delete "notexists" ([], [])).2.2
          = [Request.get "kjobrunner" "notexists" { ResourceVersion := "" }] :=
  ⟨by decide,
    (C3_delete_only_when_owned (New "runner" kube "kjobrunner") (by decide) "notexists" []).1
      (Err.StatusError StatusReasonNotFound "notexists") rfl rfl⟩

/-! ## Cleanup: which deletes are sent (C4) -/

theorem cleanupItems_traced {σ : Type} (r : Runner σ) (items : List Job) (s : σ)
    (log : List Request) :
    ((tracedRunner r).cleanupItems items (s, log)).1 = (r.cleanupItems items s).1
      ∧ ((tracedRunner r).cleanupItems items (s, log)).2.1 = (r.cleanupItems items s).2
      ∧ ∃ extra, ((tracedRunner r).cleanupItems items (s, log)).2.2 = log ++ extra
          ∧ extra <+: (completedJobs items).map (deleteRequest r.ns) := by
  induction items generalizing s log with
  | nil =>
    refine ⟨rfl, rfl, [], ?_, ?_⟩
    · simp [Runner.cleanupItems]
    · simp
  | cons job items ih =>
    by_cases hz : Time.IsZero job.Status.CompletionTime = true
    · have hc : completedJobs (job :: items) = completedJobs items := by
        simp [completedJobs, hz]
      rw [hc]
      simpa [Runner.cleanupItems, hz] using ih s log
    · have hc : completedJobs (job :: items) = job :: completedJobs items := by
        simp [completedJobs, hz]
      rw [hc]
      rcases hd : (r.client.Jobs r.ns).Delete job.Name
          { PropagationPolicy := some DeletionPropagation.Background } s with ⟨oe, s1⟩
      have hns : (tracedRunner r).ns = r.ns := rfl
      cases oe with
      | some e =>
        refine ⟨?_, ?_, [deleteRequest r.ns job], ?_, ?_⟩
        · simp [Runner.cleanupItems, hz, hd, tracedRunner, traced]
        · simp [Runner.cleanupItems, hz, hd, tracedRunner, traced]
        · simp [Runner.cleanupItems, hz, hd, tracedRunner, traced, deleteRequest]
        · simp
      | none =>
        obtain ⟨h1, h2, extra, h3, h4⟩ := ih s1 (log ++ [deleteRequest r.ns job])
        have hstep : (tracedRunner r).cleanupItems (job :: items) (s, log)
            = (tracedRunner r).cleanupItems items (s1, log ++ [deleteRequest r.ns job]) := by
          conv_lhs => unfold Runner.cleanupItems
          simp [hz, hd, tracedRunner, traced, deleteRequest]
        have hstep2 : r.cleanupItems (job :: items) s = r.cleanupItems items s1 := by
          conv_lhs => unfold Runner.cleanupItems
          simp [hz, hd]
        rw [hstep, hstep2]
        refine ⟨h1, h2, deleteRequest r.ns job :: extra, ?_, ?_⟩
        · rw [h3]; simp
        · simpa [List.cons_prefix_cons] using h4

theorem Cleanup_traced {σ : Type} (r : Runner σ) (s : σ) :
    ((tracedRunner r).Cleanup (s, [])).1 = (r.Cleanup s).1
      ∧ ((tracedRunner r).Cleanup (s, [])).2.1 = (r.Cleanup s).2
      ∧ ∃ extra, ((tracedRunner r).Cleanup (s, [])).2.2 = listRequest r :: extra
          ∧ ((∀ items, (listJobs r s).1 = Except.ok items →
                extra <+: (completedJobs items).map (deleteRequest r.ns))
              ∧ (∀ e, (listJobs r s).1 = Except.error e → extra = [])) := by
  unfold Runner.Cleanup listJobs
  rcases hl : (r.client.Jobs r.ns).List { LabelSelector := "scheduler=" ++ r.name } s
    with ⟨rep, s1⟩
  have hl' : ((tracedRunner r).client.Jobs (tracedRunner r).ns).List
      { LabelSelector := "scheduler=" ++ (tracedRunner r).name } (s, [])
      = (rep, (s1, [listRequest r])) := by
    simp [tracedRunner, traced, hl, listRequest]
  rw [hl']
  cases rep with
  | error e =>
    refine ⟨rfl, rfl, [], rfl, ?_, ?_⟩
    · intro items h; simp at h
    · intro e' _; rfl
  | ok items =>
    obtain ⟨h1, h2, extra, h3, h4⟩ := cleanupItems_traced r items s1 [listRequest r]
    refine ⟨h1, h2, extra, ?_, ?_, ?_⟩
    · simpa using h3
    · intro items' h
      simp only [Except.ok.injEq] at h
      subst h
      exact h4
    · intro e h; simp at h

/-- C4: for every client (every orchestrator state, every outcome of each
call) `Cleanup` sends first the list request for the selector
`scheduler=<scope>` and after it nothing but delete requests; every delete
request it sends is the background-propagation delete, in the namespace of the
runner, of the name of a job that is in the list returned for that selector and
whose completion timestamp is set (non-zero); when the list request fails no
delete is sent; and, names in the returned list being unique, no job of the list
whose completion timestamp is unset has its name in any delete request.  Nothing
here depends on what `Cleanup` returns. -/
theorem C4_cleanup_deletes_only_completed {σ : Type} (r : Runner σ) (s : σ) :
    (((tracedRunner r).Cleanup (s, [])).2.2.head? = some (listRequest r))
      ∧ (∀ q ∈ ((tracedRunner r).Cleanup (s, [])).2.2.tail, q.isDelete = true)
      ∧ (∀ q ∈ ((tracedRunner r).Cleanup (s, [])).2.2, q.isDelete = true →
          ∃ items job, (listJobs r s).1 = Except.ok items ∧ job ∈ items
            ∧ Time.IsZero job.Status.CompletionTime = false
            ∧ q = Request.delete r.ns job.Name
                { PropagationPolicy := some DeletionPropagation.Background })
      ∧ (∀ items, (listJobs r s).1 = Except.ok items → (items.map Job.Name).Nodup →
          ∀ job ∈ items, Time.IsZero job.Status.CompletionTime = true →
            ∀ opts, Request.delete r.ns job.Name opts
              ∉ ((tracedRunner r).Cleanup (s, [])).2.2)
      ∧ ((tracedRunner r).Cleanup (s, [])).1 = (r.Cleanup s).1 := by
  obtain ⟨h1, _, extra, h3, h4, h5⟩ := Cleanup_traced r s
  have hmem : ∀ q ∈ extra, ∃ items job, (listJobs r s).1 = Except.ok items ∧ job ∈ items
      ∧ Time.IsZero job.Status.CompletionTime = false ∧ q = deleteRequest r.ns job := by
    intro q hq
    cases hrep : (listJobs r s).1 with
    | error e => rw [h5 e hrep] at hq; simp at hq
    | ok items =>
      have hq' := (h4 items hrep).subset hq
      simp only [completedJobs, List.mem_map, List.mem_filter] at hq'
      obtain ⟨job, ⟨hj, hz⟩, rfl⟩ := hq'
      exact ⟨items, job, rfl, hj, by simpa using hz, rfl⟩
  rw [h3]
  refine ⟨rfl, ?_, ?_, ?_, h1⟩
  · intro q hq
    obtain ⟨_, job, _, _, _, rfl⟩ := hmem q (by simpa using hq)
    rfl
  · intro q hq hd
    simp only [List.mem_cons] at hq
    rcases hq with rfl | hq
    · simp [listRequest, Request.isDelete] at hd
    · exact hmem q hq
  · intro items hrep hnd job hj hz opts hq
    simp only [List.mem_cons] at hq
    rcases hq with hq | hq
    · simp [listRequest] at hq
    · obtain ⟨items', job', hrep', hj', hz', heq⟩ := hmem _ hq
      rw [hrep] at hrep'
      simp only [Except.ok.injEq] at hrep'
      subst hrep'
      simp only [deleteRequest, Request.delete.injEq, true_and] at heq
      have hsame : job = job' :=
        List.inj_on_of_nodup_map hnd hj hj' heq.1
      subst hsame
      rw [hz] at hz'
      exact Bool.noConfusion hz'

/-! ## Cleanup: the first failing delete ends the sweep (C10) -/

theorem cleanupItems_first_failure {σ : Type} (r : Runner σ) (items : List Job) :
    ∀ (i : Nat) (st : Nat → σ) (log : List Request) (job : Job) (e : Err) (s3 : σ),
      items[i]? = some job →
      Time.IsZero job.Status.CompletionTime = false →
      (∀ j jb, j < i → items[j]? = some jb →
        if Time.IsZero jb.Status.CompletionTime = true then st (j + 1) = st j
        else (r.client.Jobs r.ns).Delete jb.Name
          { PropagationPolicy := some DeletionPropagation.Background } (st j)
            = (none, st (j + 1))) →
      (r.client.Jobs r.ns).Delete job.Name
          { PropagationPolicy := some DeletionPropagation.Background } (st i) = (some e, s3) →
      r.cleanupItems items (st 0) = (some e, s3)
        ∧ ((tracedRunner r).cleanupItems items (st 0, log)).2.2
            = log ++ ((completedJobs (items.take i)).map (deleteRequest r.ns)
                ++ [deleteRequest r.ns job]) := by
  induction items with
  | nil =>
    intro i st log job e s3 hi
    simp at hi
  | cons first items ih =>
    intro i st log job e s3 hi hdone hbefore hfail
    cases i with
    | zero =>
      simp only [List.getElem?_cons_zero, Option.some.injEq] at hi
      subst hi
      constructor
      · simp [Runner.cleanupItems, hdone, hfail]
      · simp [Runner.cleanupItems, hdone, hfail, tracedRunner, traced, deleteRequest,
          completedJobs]
    | succ i =>
      simp only [List.getElem?_cons_succ] at hi
      have h0 := hbefore 0 first (Nat.succ_pos i) (by simp)
      have hrest : ∀ j jb, j < i → items[j]? = some jb →
          if Time.IsZero jb.Status.CompletionTime = true then st (j + 1 + 1) = st (j + 1)
          else (r.client.Jobs r.ns).Delete jb.Name
            { PropagationPolicy := some DeletionPropagation.Background } (st (j + 1))
              = (none, st (j + 1 + 1)) := by
        intro j jb hj hjb
        exact hbefore (j + 1) jb (Nat.succ_lt_succ hj) (by simpa using hjb)
      by_cases hz : Time.IsZero first.Status.CompletionTime = true
      · rw [if_pos hz] at h0
        have hc : completedJobs (List.take (i + 1) (first :: items))
            = completedJobs (List.take i items) := by
          simp [completedJobs, hz]
        obtain ⟨h1, h2⟩ := ih i (fun k => st (k + 1)) log job e s3 hi hdone hrest hfail
        simp only [Nat.zero_add] at h0 h1 h2
        rw [hc]
        constructor
        · conv_lhs => unfold Runner.cleanupItems
          simp only [hz, if_true]
          rw [← h0]; exact h1
        · conv_lhs => unfold Runner.cleanupItems
          simp only [hz, if_true]
          rw [← h0]; exact h2
      · rw [if_neg hz] at h0
        have hc : completedJobs (List.take (i + 1) (first :: items))
            = first :: completedJobs (List.take i items) := by
          simp [completedJobs, hz]
        obtain ⟨h1, h2⟩ := ih i (fun k => st (k + 1))
          (log ++ [deleteRequest r.ns first]) job e s3 hi hdone hrest hfail
        simp only [Nat.zero_add] at h0 h1 h2
        rw [hc]
        have hstep : (tracedRunner r).cleanupItems (first :: items) (st 0, log)
            = (tracedRunner r).cleanupItems items
                (st 1, log ++ [deleteRequest r.ns first]) := by
          conv_lhs => unfold Runner.cleanupItems
          simp [hz, h0, tracedRunner, traced, deleteRequest]
        have hstep2 : r.cleanupItems (first :: items) (st 0) = r.cleanupItems items (st 1) := by
          conv_lhs => unfold Runner.cleanupItems
          simp [hz, h0]
        rw [hstep, hstep2]
        refine ⟨h1, ?_⟩
        rw [h2]
        simp

/-- C10: let the list request of `Cleanup` return `items`, let job number `i` of
the list be completed, let the delete of every completed job before position
`i` succeed (the client passing through the states `st 0`, ..., `st i`) and let
the delete of job `i` fail with the error `e`.  Then `Cleanup` returns `e`, and
the requests it has sent are, after the list request, the deletes of exactly the
completed jobs at positions before `i`, in list order, followed by the failed
delete of job `i`: no request concerns a job at a later position. -/
theorem C10_cleanup_stops_at_first_failure {σ : Type} (r : Runner σ) (s : σ)
    (items : List Job) (i : Nat) (job : Job) (e : Err) (st : Nat → σ) (s3 : σ)
    (hlist : listJobs r s = (Except.ok items, st 0))
    (hi : items[i]? = some job)
    (hdone : Time.IsZero job.Status.CompletionTime = false)
    (hbefore : ∀ j jb, j < i → items[j]? = some jb →
      if Time.IsZero jb.Status.CompletionTime = true then st (j + 1) = st j
      else (r.client.Jobs r.ns).Delete jb.Name
        { PropagationPolicy := some DeletionPropagation.Background } (st j)
          = (none, st (j + 1)))
    (hfail : (r.client.Jobs r.ns).Delete job.Name
      { PropagationPolicy := some DeletionPropagation.Background } (st i) = (some e, s3)) :
    r.Cleanup s = (some e, s3)
      ∧ ((tracedRunner r).Cleanup (s, [])).2.2
          = listRequest r :: ((completedJobs (items.take i)).map (deleteRequest r.ns)
              ++ [deleteRequest r.ns job]) := by
  obtain ⟨h1, h2⟩ := cleanupItems_first_failure r items i st [listRequest r] job e s3
    hi hdone hbefore hfail
  unfold listJobs at hlist
  constructor
  · unfold Runner.Cleanup
    rw [hlist]
    exact h1
  · have hl' : ((tracedRunner r).client.Jobs (tracedRunner r).ns).List
        { LabelSelector := "scheduler=" ++ (tracedRunner r).name } (s, [])
        = (Except.ok items, (st 0, [listRequest r])) := by
      simp [tracedRunner, traced, hlist, listRequest]
    unfold Runner.Cleanup
    rw [hl']
    simpa using h2

theorem C10_cleanup_stops_at_first_failure_witness :
    (New "cleanup" (failingDelete "hello-2" (Err.other "refused") kube) "kjobrunner").Cleanup
        threeCompleted
        = (some (Err.other "refused"), threeCompleted.tail)
      ∧ ((tracedRunner
            (New "cleanup" (failingDelete "hello-2" (Err.other "refused") kube)
              "kjobrunner")).Cleanup (threeCompleted, [])).2.2
          = [Request.list "kjobrunner" { LabelSelector := "scheduler=cleanup" },
             Request.delete "kjobrunner" "hello-1"
              { PropagationPolicy := some DeletionPropagation.Background },
             Request.delete "kjobrunner" "hello-2"
              { PropagationPolicy := some DeletionPropagation.Background }] :=
  C10_cleanup_stops_at_first_failure
    (New "cleanup" (failingDelete "hello-2" (Err.other "refused") kube) "kjobrunner")
    threeCompleted
    [sampleJob "hello-1" "cleanup" (some 5), sampleJob "hello-2" "cleanup" (some 7),
      sampleJob "hello-3" "cleanup" (some 9)]
    1 (sampleJob "hello-2" "cleanup" (some 7)) (Err.other "refused")
    (fun k => if k = 0 then threeCompleted else threeCompleted.tail) threeCompleted.tail
    (by rfl) (by decide) (by decide)
    (by
      intro j jb hj hjb
      have hj0 : j = 0 := by omega
      subst hj0
      simp only [List.getElem?_cons_zero, Option.some.injEq] at hjb
      subst hjb
      decide)
    (by decide)

/-! ## Cleanup on the in-memory orchestrator (C8) -/

theorem effectiveScope_ne_empty (name : String) : effectiveScope name ≠ "" := by
  unfold effectiveScope
  by_cases h : name = ""
  · rw [if_pos h]; decide
  · rw [if_neg h]; exact h

theorem kube_get_after_create (ns : String) (job : Job) (c : Cluster)
    (hfree : c.any (isJob ns job.Name) = false) :
    (kube.Jobs ns).Create job c = (Except.ok job, c ++ [(ns, job)])
      ∧ (kube.Jobs ns).Get job.Name { ResourceVersion := "" } (c ++ [(ns, job)])
          = (Except.ok job, c ++ [(ns, job)]) := by
  constructor
  · simp [kube, kubeWith, hfree]
  · have hnone : c.find? (isJob ns job.Name) = none := by
      rw [List.find?_eq_none]
      intro p hp
      have := List.any_eq_false.mp hfree p hp
      simpa using this
    have hself : isJob ns job.Name (ns, job) = true := by simp [isJob]
    simp [kube, kubeWith, List.find?_append, hnone, hself]

theorem kube_Run_then_Exists (S1 S2 ns : String) (opt : RunOption) (c : Cluster)
    (hne : effectiveScope S1 ≠ effectiveScope S2)
    (hrun : ((New S1 kube ns).Run opt c).1.1 = none) :
    ((New S2 kube ns).Exists opt.Name ((New S1 kube ns).Run opt c).2).1 = (false, none)
      ∧ ((New S2 kube ns).getJob opt.Name ((New S1 kube ns).Run opt c).2).1
          = Except.ok (managedJob (effectiveScope S1) opt) := by
  have hR := Run_New S1 ns kube opt c
  have hname : (managedJob (effectiveScope S1) opt).Name = opt.Name := rfl
  have hfree : c.any (isJob ns (managedJob (effectiveScope S1) opt).Name) = false := by
    cases hany : c.any (isJob ns (managedJob (effectiveScope S1) opt).Name) with
    | false => rfl
    | true =>
      rw [hR] at hrun
      simp [kube, kubeWith, hany, errorOf] at hrun
  obtain ⟨hcreate, hget⟩ := kube_get_after_create ns _ c hfree
  have hstate : ((New S1 kube ns).Run opt c).2
      = c ++ [(ns, managedJob (effectiveScope S1) opt)] := by
    rw [hR, hcreate]
  rw [hstate]
  have hg : ((New S2 kube ns).getJob opt.Name
      (c ++ [(ns, managedJob (effectiveScope S1) opt)]))
      = (Except.ok (managedJob (effectiveScope S1) opt),
          c ++ [(ns, managedJob (effectiveScope S1) opt)]) := by
    rw [hname] at hget
    exact hget
  have key := Exists_eq_table (New S2 kube ns) (effectiveScope_ne_empty S2) opt.Name
    (c ++ [(ns, managedJob (effectiveScope S1) opt)])
  rw [key, hg]
  refine ⟨?_, rfl⟩
  have hlk : ¬ (some (effectiveScope S1) = some (New S2 kube ns).name) := by
    rw [New_name]
    intro h
    exact hne (Option.some.inj h)
  simp only [existsTable, Job.GetLabels, managedJob]
  have : List.lookup "scheduler" [("scheduler", effectiveScope S1), ("name", opt.Name)]
      = some (effectiveScope S1) := by simp [List.lookup]
  rw [this, if_neg hlk]

theorem Run_traced_log {σ : Type} (scope ns : String) (client : Clientset σ) (opt : RunOption)
    (s : σ) :
    ((tracedRunner (New scope client ns)).Run opt (s, [])).2.2
      = [Request.create ns (managedJob (effectiveScope scope) opt)] := by
  have h2 := Run_New scope ns (traced client) opt (s, [])
  have ht : tracedRunner (New scope client ns) = New scope (traced client) ns := rfl
  rw [ht, h2]
  simp [traced]

/-- C2, as the code has it: take two scope names whose scopes differ once `New`
has replaced an empty name by the default `kjobrunner`, any client and any job
name.  If the controller built with the first name creates the job with `Run`
(`created` is the job of its create request) and the orchestrator, asked by the
controller built with the second name for that job in the same namespace,
returns a job carrying exactly the labels `Run` attached, then `Exists` on the
second controller returns (false, nil), although the job is present. -/
theorem C2_other_scope_reports_absent {σ : Type} (S1 S2 ns : String) (client : Clientset σ)
    (opt : RunOption) (s0 s : σ) (created job : Job)
    (hne : effectiveScope S1 ≠ effectiveScope S2)
    (hcreated : Request.create ns created
      ∈ ((tracedRunner (New S1 client ns)).Run opt (s0, [])).2.2)
    (hget : ((New S2 client ns).getJob opt.Name s).1 = Except.ok job)
    (hlabels : job.GetLabels = created.GetLabels) :
    ((New S2 client ns).Exists opt.Name s).1 = (false, none) := by
  rw [Run_traced_log] at hcreated
  simp only [List.mem_singleton, Request.create.injEq, true_and] at hcreated
  subst hcreated
  have key := Exists_eq_table (New S2 client ns) (effectiveScope_ne_empty S2) opt.Name s
  rw [key, hget]
  apply existsTable_not_owned
  rw [hlabels, New_name]
  intro h
  have h' : some (effectiveScope S1) = some (effectiveScope S2) := by
    simpa [Job.GetLabels, managedJob, List.lookup] using h
  exact hne (Option.some.inj h')

theorem C2_other_scope_reports_absent_witness :
    effectiveScope "runner" ≠ effectiveScope "cleanup"
      ∧ ((New "cleanup" kube "kjobrunner").getJob "hello"
          ((New "runner" kube "kjobrunner").Run (helloWorld "hello") []).2).1
          = Except.ok (managedJob "runner" (helloWorld "hello"))
      ∧ ((New "cleanup" kube "kjobrunner").Exists "hello"
          ((New "runner" kube "kjobrunner").Run (helloWorld "hello") []).2).1 = (false, none) :=
  ⟨by decide, rfl,
    C2_other_scope_reports_absent "runner" "cleanup" "kjobrunner" kube (helloWorld "hello") []
      ((New "runner" kube "kjobrunner").Run (helloWorld "hello") []).2
      (managedJob "runner" (helloWorld "hello")) (managedJob "runner" (helloWorld "hello"))
      (by decide) (by decide) rfl rfl⟩

/-- C2 fails as stated: the scope names `""` and `"kjobrunner"` differ, yet `New`
gives both controllers the scope `kjobrunner`; the job that the first creates
with `Run` is stored with the labels `Run` attached and is reported as existing
by the second. -/
theorem C2_counterexample_default_scope :
    ("" : String) ≠ "kjobrunner"
      ∧ (New "" kube "kjobrunner").name = (New "kjobrunner" kube "kjobrunner").name
      ∧ ((New "" kube "kjobrunner").Run (helloWorld "hello") []).1.1 = none
      ∧ ((New "" kube "kjobrunner").Run (helloWorld "hello") []).2
          = [("kjobrunner", managedJob "kjobrunner" (helloWorld "hello"))]
      ∧ ((New "kjobrunner" kube "kjobrunner").Exists "hello"
          ((New "" kube "kjobrunner").Run (helloWorld "hello") []).2).1 = (true, none) := by
  decide

/-! ## Waiting for completion (C5, C6) -/

theorem waitCondition_running {σ : Type} (r : Runner σ) (name : String) (s : σ)
    (h : Running ((r.client.Jobs r.ns).Get name { ResourceVersion := "" } s).1) :
    r.waitCondition name s
      = ((false, none), ((r.client.Jobs r.ns).Get name { ResourceVersion := "" } s).2) := by
  unfold Runner.waitCondition
  rcases hg : (r.client.Jobs r.ns).Get name { ResourceVersion := "" } s with ⟨rep, s1⟩
  rw [hg] at h
  cases rep with
  | error e => exact absurd h (by simp [Running])
  | ok job =>
    simp only [Running] at h
    simp [h]

theorem waitCondition_done {σ : Type} (r : Runner σ) (name : String) (s : σ)
    (h : ¬ Running ((r.client.Jobs r.ns).Get name { ResourceVersion := "" } s).1) :
    r.waitCondition name s
      = ((true, verdict ((r.client.Jobs r.ns).Get name { ResourceVersion := "" } s).1),
          ((r.client.Jobs r.ns).Get name { ResourceVersion := "" } s).2) := by
  unfold Runner.waitCondition
  rcases hg : (r.client.Jobs r.ns).Get name { ResourceVersion := "" } s with ⟨rep, s1⟩
  rw [hg] at h
  cases rep with
  | error e =>
    cases e with
    | StatusError reason message =>
      by_cases hq : reason = StatusReasonNotFound <;> simp [verdict, Err.isNotFound, hq]
    | ErrNotExists => simp [verdict, Err.isNotFound]
    | ErrWaitTimeout => simp [verdict, Err.isNotFound]
    | other m => simp [verdict, Err.isNotFound]
  | ok job =>
    simp only [Running] at h
    simp [h, verdict]

theorem verdict_ne_none_of_error (e : Err) : verdict (Except.error e) ≠ none := by
  unfold verdict
  by_cases h : e.isNotFound = true <;> simp [h]

theorem WaitFor_ends {σ : Type} (r : Runner σ) (name : String) :
    ∀ (M k : Nat) (s : σ), k ≤ M →
      (∀ i, i < k → Running (pollReply r name s i)) →
      ¬ Running (pollReply r name s k) →
      wait.WaitFor (r.waitCondition name) M s
        = (verdict (pollReply r name s k), (observe (r.client.Jobs r.ns) name k s).2) := by
  intro M
  induction M with
  | zero =>
    intro k s hk _ hdone
    have hk0 : k = 0 := Nat.le_zero.mp hk
    subst hk0
    simp only [pollReply, observe] at hdone ⊢
    unfold wait.WaitFor
    rw [waitCondition_done r name s hdone]
    cases hv : verdict ((r.client.Jobs r.ns).Get name { ResourceVersion := "" } s).1 <;> rfl
  | succ M ih =>
    intro k s hk hrun hdone
    cases k with
    | zero =>
      simp only [pollReply, observe] at hdone ⊢
      unfold wait.WaitFor
      rw [waitCondition_done r name s hdone]
      cases hv : verdict ((r.client.Jobs r.ns).Get name { ResourceVersion := "" } s).1 <;> rfl
    | succ k =>
      have h0 : Running ((r.client.Jobs r.ns).Get name { ResourceVersion := "" } s).1 :=
        hrun 0 (Nat.succ_pos k)
      have hstep : wait.WaitFor (r.waitCondition name) (M + 1) s
          = wait.WaitFor (r.waitCondition name) M
              ((r.client.Jobs r.ns).Get name { ResourceVersion := "" } s).2 := by
        conv_lhs => unfold wait.WaitFor
        rw [waitCondition_running r name s h0]
      rw [hstep]
      exact ih k _ (Nat.le_of_succ_le_succ hk)
        (fun i hi => hrun (i + 1) (Nat.succ_lt_succ hi)) hdone

theorem WaitFor_timeout {σ : Type} (r : Runner σ) (name : String) :
    ∀ (M : Nat) (s : σ), (∀ i, i ≤ M → Running (pollReply r name s i)) →
      wait.WaitFor (r.waitCondition name) M s
        = (some Err.ErrWaitTimeout, (observe (r.client.Jobs r.ns) name M s).2) := by
  intro M
  induction M with
  | zero =>
    intro s hrun
    have h0 : Running ((r.client.Jobs r.ns).Get name { ResourceVersion := "" } s).1 :=
      hrun 0 (Nat.le_refl 0)
    unfold wait.WaitFor
    rw [waitCondition_running r name s h0]
    rfl
  | succ M ih =>
    intro s hrun
    have h0 : Running ((r.client.Jobs r.ns).Get name { ResourceVersion := "" } s).1 :=
      hrun 0 (Nat.zero_le _)
    have hstep : wait.WaitFor (r.waitCondition name) (M + 1) s
        = wait.WaitFor (r.waitCondition name) M
            ((r.client.Jobs r.ns).Get name { ResourceVersion := "" } s).2 := by
      conv_lhs => unfold wait.WaitFor
      rw [waitCondition_running r name s h0]
    rw [hstep]
    exact ih _ (fun i hi => hrun (i + 1) (Nat.succ_le_succ hi))

theorem PollImmediate_eq_WaitFor {σ : Type} (interval timeout : Duration) (delivered : Nat)
    (condition : σ → (Bool × Option Err) × σ) (s : σ) :
    wait.PollImmediate interval timeout delivered condition s
      = wait.WaitFor condition (min delivered (timeout / interval) + 1) s := by
  conv_rhs => unfold wait.WaitFor
  unfold wait.PollImmediate
  rfl

theorem Wait_eq_WaitFor {σ : Type} (r : Runner σ) (name : String) (delivered : Nat) (s : σ) :
    r.Wait name delivered s
      = wait.WaitFor (r.waitCondition name) (min delivered 1800 + 1) s := by
  unfold Runner.Wait
  rw [PollImmediate_eq_WaitFor]
  have h : (1 * time.Hour) / (2 * time.Second) = 1800 := by
    norm_num [time.Hour, time.Second]
  rw [h]

theorem observe_traced {σ : Type} (r : Runner σ) (name : String) :
    ∀ (k : Nat) (s : σ) (log : List Request),
      observe ((tracedRunner r).client.Jobs (tracedRunner r).ns) name k (s, log)
        = ((observe (r.client.Jobs r.ns) name k s).1,
            ((observe (r.client.Jobs r.ns) name k s).2,
              log ++ List.replicate (k + 1) (getRequest r name))) := by
  intro k
  induction k with
  | zero =>
    intro s log
    simp [observe, tracedRunner, traced, getRequest]
  | succ k ih =>
    intro s log
    have hstep : observe ((tracedRunner r).client.Jobs (tracedRunner r).ns) name (k + 1) (s, log)
        = observe ((tracedRunner r).client.Jobs (tracedRunner r).ns) name k
            (((r.client.Jobs r.ns).Get name { ResourceVersion := "" } s).2,
              log ++ [getRequest r name]) := by
      simp [observe, tracedRunner, traced, getRequest]
    rw [hstep, ih]
    simp [observe, List.replicate_succ]

theorem pollReply_traced {σ : Type} (r : Runner σ) (name : String) (s : σ) (k : Nat) :
    pollReply (tracedRunner r) name (s, []) k = pollReply r name s k := by
  unfold pollReply
  rw [observe_traced]

theorem Wait_traced_log_ends {σ : Type} (r : Runner σ) (name : String) (delivered : Nat) (s : σ)
    (k : Nat) (hk : k ≤ min delivered 1800 + 1)
    (hrun : ∀ i, i < k → Running (pollReply r name s i))
    (hdone : ¬ Running (pollReply r name s k)) :
    ((tracedRunner r).Wait name delivered (s, [])).2.2
      = List.replicate (k + 1) (getRequest r name) := by
  have hrun' : ∀ i, i < k → Running (pollReply (tracedRunner r) name (s, []) i) := by
    intro i hi
    rw [pollReply_traced]
    exact hrun i hi
  have hdone' : ¬ Running (pollReply (tracedRunner r) name (s, []) k) := by
    rw [pollReply_traced]
    exact hdone
  rw [Wait_eq_WaitFor, WaitFor_ends (tracedRunner r) name _ k (s, []) hk hrun' hdone',
    observe_traced]
  simp

/-- C5: for every client, that is for every sequence of replies to the polls of
`Wait(name)` (poll 0 at once, then one per tick, the last one when the one-hour
timeout closes the poller; `delivered` ticks reach the loop, at most 1800 of
them counting): `Wait` returns nil exactly when some poll within the ceiling
shows a non-zero completion timestamp and every earlier poll showed the job
present without one; a not-found reply after such polls ends the wait with
`ErrNotExists`, any other fetch error ends it with that error; and in each of
these cases the poll that did not show the job running is the last request
sent. -/
theorem C5_wait_nil_iff_completion_observed {σ : Type} (r : Runner σ) (name : String)
    (delivered : Nat) (s : σ) :
    ((r.Wait name delivered s).1 = none ↔
        ∃ k, k ≤ min delivered 1800 + 1 ∧ Completed (pollReply r name s k)
          ∧ ∀ i, i < k → Running (pollReply r name s i))
      ∧ (∀ k e, k ≤ min delivered 1800 + 1 →
          (∀ i, i < k → Running (pollReply r name s i)) →
          pollReply r name s k = Except.error e → e.isNotFound = true →
          (r.Wait name delivered s).1 = some Err.ErrNotExists)
      ∧ (∀ k e, k ≤ min delivered 1800 + 1 →
          (∀ i, i < k → Running (pollReply r name s i)) →
          pollReply r name s k = Except.error e → e.isNotFound = false →
          (r.Wait name delivered s).1 = some e)
      ∧ (∀ k, k ≤ min delivered 1800 + 1 →
          (∀ i, i < k → Running (pollReply r name s i)) →
          ¬ Running (pollReply r name s k) →
          ((tracedRunner r).Wait name delivered (s, [])).2.2
            = List.replicate (k + 1) (getRequest r name)) := by
  have hW := Wait_eq_WaitFor r name delivered s
  refine ⟨⟨?_, ?_⟩, ?_, ?_, ?_⟩
  · intro hnone
    by_cases hall : ∀ i, i ≤ min delivered 1800 + 1 → Running (pollReply r name s i)
    · rw [hW, WaitFor_timeout r name _ s hall] at hnone
      simp at hnone
    · classical
      have hex : ∃ i, i ≤ min delivered 1800 + 1 ∧ ¬ Running (pollReply r name s i) := by
        by_contra hno
        apply hall
        intro i hi
        by_contra hnr
        exact hno ⟨i, hi, hnr⟩
      have hk := Nat.find_spec hex
      have hmin : ∀ i, i < Nat.find hex → Running (pollReply r name s i) := by
        intro i hi
        by_contra hnr
        exact Nat.find_min hex hi ⟨le_trans (le_of_lt hi) hk.1, hnr⟩
      have hres := WaitFor_ends r name _ (Nat.find hex) s hk.1 hmin hk.2
      rw [hW, hres] at hnone
      refine ⟨Nat.find hex, hk.1, ?_, hmin⟩
      have hnr := hk.2
      cases hrep : pollReply r name s (Nat.find hex) with
      | error e =>
        rw [hrep] at hnone
        exact absurd hnone (verdict_ne_none_of_error e)
      | ok job =>
        rw [hrep] at hnr
        simp only [Running, Bool.not_eq_true] at hnr
        exact hnr
  · rintro ⟨k, hk, hc, hrun⟩
    have hnr : ¬ Running (pollReply r name s k) := by
      cases hrep : pollReply r name s k with
      | error e => simp [Running]
      | ok job =>
        rw [hrep] at hc
        simp only [Completed] at hc
        simp [Running, hc]
    rw [hW, WaitFor_ends r name _ k s hk hrun hnr]
    cases hrep : pollReply r name s k with
    | error e =>
      rw [hrep] at hc
      exact absurd hc (by simp [Completed])
    | ok job => rfl
  · intro k e hk hrun hrep hnf
    have hnr : ¬ Running (pollReply r name s k) := by rw [hrep]; simp [Running]
    rw [hW, WaitFor_ends r name _ k s hk hrun hnr, hrep]
    simp [verdict, hnf]
  · intro k e hk hrun hrep hnf
    have hnr : ¬ Running (pollReply r name s k) := by rw [hrep]; simp [Running]
    rw [hW, WaitFor_ends r name _ k s hk hrun hnr, hrep]
    simp [verdict, hnf]
  · intro k hk hrun hdone
    exact Wait_traced_log_ends r name delivered s k hk hrun hdone

theorem C5_wait_nil_iff_completion_observed_witness :
    ((New "cleanup" kube "kjobrunner").Wait "hello-1" 1800 waitScenario).1 = none
      ∧ ((New "cleanup" kube "kjobrunner").Wait "hello-2" 1800 waitScenario).1
          = some Err.ErrNotExists :=
  ⟨(C5_wait_nil_iff_completion_observed (New "cleanup" kube "kjobrunner") "hello-1" 1800
      waitScenario).1.2 ⟨0, Nat.zero_le _, by decide, fun i hi => absurd hi (Nat.not_lt_zero i)⟩,
    (C5_wait_nil_iff_completion_observed (New "cleanup" kube "kjobrunner") "hello-2" 1800
      waitScenario).2.1 0 (Err.StatusError StatusReasonNotFound "hello-2") (Nat.zero_le _)
      (fun i hi => absurd hi (Nat.not_lt_zero i)) rfl rfl⟩

/-- C6: when every poll of `Wait(name)` (poll 0 at once, one per delivered tick,
at most 1800 ticks in the hour, and the last poll when the timeout closes the
poller) shows the job present with no completion timestamp, `Wait` ends after
exactly `min delivered 1800 + 2` polls, at most 1802, and returns the timeout
error of the polling helper (`ErrTimeout` in the specification), which is
neither `ErrNotExists` nor nil. -/
theorem C6_wait_times_out {σ : Type} (r : Runner σ) (name : String) (delivered : Nat) (s : σ)
    (hrun : ∀ k, k ≤ min delivered 1800 + 1 → Running (pollReply r name s k)) :
    (r.Wait name delivered s).1 = some Err.ErrWaitTimeout
      ∧ ((tracedRunner r).Wait name delivered (s, [])).2.2
          = List.replicate (min delivered 1800 + 2) (getRequest r name)
      ∧ ((tracedRunner r).Wait name delivered (s, [])).2.2.length ≤ 1802
      ∧ (r.Wait name delivered s).1 ≠ some Err.ErrNotExists
      ∧ (r.Wait name delivered s).1 ≠ none := by
  have hres : (r.Wait name delivered s).1 = some Err.ErrWaitTimeout := by
    rw [Wait_eq_WaitFor, WaitFor_timeout r name _ s hrun]
  have hrun' : ∀ k, k ≤ min delivered 1800 + 1 →
      Running (pollReply (tracedRunner r) name (s, []) k) := by
    intro k hk
    rw [pollReply_traced]
    exact hrun k hk
  have hlog : ((tracedRunner r).Wait name delivered (s, [])).2.2
      = List.replicate (min delivered 1800 + 2) (getRequest r name) := by
    rw [Wait_eq_WaitFor, WaitFor_timeout (tracedRunner r) name _ (s, []) hrun', observe_traced]
    simp
  refine ⟨hres, hlog, ?_, ?_, ?_⟩
  · rw [hlog, List.length_replicate]
    have := Nat.min_le_right delivered 1800
    omega
  · rw [hres]; simp
  · rw [hres]; simp

theorem C6_wait_times_out_witness :
    ((New "cleanup" kube "kjobrunner").Wait "hello-3" 1 waitScenario).1
        = some Err.ErrWaitTimeout
      ∧ ((tracedRunner (New "cleanup" kube "kjobrunner")).Wait "hello-3" 1
          (waitScenario, [])).2.2.length = 3 :=
  ⟨(C6_wait_times_out (New "cleanup" kube "kjobrunner") "hello-3" 1 waitScenario
      (by
        intro k hk
        have hk2 : k ≤ 2 := hk
        interval_cases k <;> decide)).1,
    by
      rw [(C6_wait_times_out (New "cleanup" kube "kjobrunner") "hello-3" 1 waitScenario
        (by
          intro k hk
          have hk2 : k ≤ 2 := hk
          interval_cases k <;> decide)).2.1]
      rfl⟩

end kjobrunner
